import Mathlib

/-!
Verification development for the TimeAndTaskmanager repository.

Shallow embedding of the core data model and operations:
* `src/src/time_tracker.py` — `TimeEntry`, `TimeTracker` (start/stop/update/delete),
* `src/src/task_manager.py` — `Task`/`Customer`/`Department` and their managers,
* `src/web_app.py` — the hours reports (`report_customers`, `report_departments`).

Modelling conventions:
* Python `dict`s (insertion ordered, unique keys) are association lists
  `List (String × α)`; `dset` is dict assignment (overwrite in place, else
  append), `ddel` is `del`, `dget` is lookup.
* ISO timestamp strings handled by `datetime.fromisoformat` /
  `datetime.now().isoformat()` in the timer are modelled as integers (whole
  seconds); `int((end - start).total_seconds())` becomes integer subtraction.
  The task-manager timestamps, which are only generated and stored, stay
  strings.
* Python's `float` hours are modelled as exact rationals `ℚ`.
* `datetime.now()` and `uuid4()` are passed in as explicit parameters.
* Dynamically typed `**kwargs` payloads are `List (String × PyVal)` where
  `PyVal` covers the value shapes the fields hold (string, number, null).
* File persistence is modelled by a `file` field holding the last written
  mapping plus a `saves` write counter.
-/

namespace TTM

/-- Values that may appear in a dynamic `**kwargs` payload or a JSON record:
strings, integer timestamps, numeric (float) values, and `None`. -/
inductive PyVal where
  | vstr  (s : String)
  | vint  (n : Int)
  | vnum  (q : ℚ)
  | vnone
deriving DecidableEq

/-! ### Association-list model of Python dicts -/

/-- Dict lookup: first binding of the key, if any. -/
def dget : List (String × α) → String → Option α
  | [], _ => none
  | (k, v) :: rest, key => if k = key then some v else dget rest key

/-- Dict assignment `d[key] = v`: overwrite in place preserving position,
append at the end if the key is absent. -/
def dset : List (String × α) → String → α → List (String × α)
  | [], key, v => [(key, v)]
  | (k, w) :: rest, key, v =>
      if k = key then (key, v) :: rest else (k, w) :: dset rest key v

/-- Dict deletion `del d[key]`. -/
def ddel : List (String × α) → String → List (String × α)
  | [], _ => []
  | (k, v) :: rest, key =>
      if k = key then ddel rest key else (k, v) :: ddel rest key

/-- The keys of a dict. -/
def dkeys (l : List (String × α)) : List String := l.map Prod.fst

theorem dget_eq_none_iff (l : List (String × α)) (k : String) :
    dget l k = none ↔ ∀ p ∈ l, p.1 ≠ k := by
  induction l with
  | nil => simp [dget]
  | cons hd tl ih =>
    obtain ⟨k', v⟩ := hd
    by_cases h : k' = k
    · subst h; simp [dget]
    · simp [dget, h, ih]

theorem dget_isSome_of_mem {l : List (String × α)} {k : String} {v : α}
    (h : (k, v) ∈ l) : (dget l k).isSome := by
  cases hg : dget l k with
  | some w => rfl
  | none =>
    exact absurd rfl ((dget_eq_none_iff l k).mp hg (k, v) h)

theorem dget_mem {l : List (String × α)} {k : String} {v : α}
    (h : dget l k = some v) : (k, v) ∈ l := by
  induction l with
  | nil => simp [dget] at h
  | cons hd tl ih =>
    obtain ⟨k', w⟩ := hd
    by_cases hk : k' = k
    · subst hk
      simp [dget] at h
      simp [h]
    · simp [dget, hk] at h
      exact List.mem_cons_of_mem _ (ih h)

theorem dget_dset_self (l : List (String × α)) (k : String) (v : α) :
    dget (dset l k v) k = some v := by
  induction l with
  | nil => simp [dset, dget]
  | cons hd tl ih =>
    obtain ⟨k', w⟩ := hd
    by_cases h : k' = k
    · subst h; simp [dset, dget]
    · simp [dset, dget, h, ih]

theorem dget_dset_ne (l : List (String × α)) (k k' : String) (v : α)
    (h : k' ≠ k) : dget (dset l k v) k' = dget l k' := by
  have h' : ¬ (k = k') := fun hh => h hh.symm
  induction l with
  | nil => simp [dset, dget, h']
  | cons hd tl ih =>
    obtain ⟨k0, w⟩ := hd
    by_cases hk : k0 = k
    · subst hk
      simp [dset, dget, h']
    · simp [dset, dget, hk, ih]

theorem dget_ddel_self (l : List (String × α)) (k : String) :
    dget (ddel l k) k = none := by
  induction l with
  | nil => simp [ddel, dget]
  | cons hd tl ih =>
    obtain ⟨k', v⟩ := hd
    by_cases h : k' = k
    · subst h; simp [ddel, ih]
    · simp [ddel, dget, h, ih]

theorem dget_ddel_ne (l : List (String × α)) (k k' : String)
    (h : k' ≠ k) : dget (ddel l k) k' = dget l k' := by
  have h' : ¬ (k = k') := fun hh => h hh.symm
  induction l with
  | nil => simp [ddel]
  | cons hd tl ih =>
    obtain ⟨k0, v⟩ := hd
    by_cases hk : k0 = k
    · subst hk
      simp [ddel, dget, h', ih]
    · simp [ddel, dget, hk, ih]

theorem mem_dset {l : List (String × α)} {k : String} {v : α} {p : String × α}
    (h : p ∈ dset l k v) : p = (k, v) ∨ p ∈ l := by
  induction l with
  | nil => simpa [dset] using h
  | cons hd tl ih =>
    obtain ⟨k0, w⟩ := hd
    by_cases hk : k0 = k
    · subst hk
      simp [dset] at h
      rcases h with h | h
      · exact Or.inl (by simp [h])
      · exact Or.inr (List.mem_cons_of_mem _ h)
    · simp [dset, hk] at h
      rcases h with h | h
      · exact Or.inr (by simp [h])
      · rcases ih h with h' | h'
        · exact Or.inl h'
        · exact Or.inr (List.mem_cons_of_mem _ h')

theorem self_mem_dset (l : List (String × α)) (k : String) (v : α) :
    (k, v) ∈ dset l k v := by
  induction l with
  | nil => simp [dset]
  | cons hd tl ih =>
    obtain ⟨k0, w⟩ := hd
    by_cases hk : k0 = k
    · subst hk; simp [dset]
    · simp [dset, hk]
      right; exact ih

theorem mem_ddel {l : List (String × α)} {k : String} {p : String × α}
    (h : p ∈ ddel l k) : p ∈ l ∧ p.1 ≠ k := by
  induction l with
  | nil => simp [ddel] at h
  | cons hd tl ih =>
    obtain ⟨k0, v⟩ := hd
    by_cases hk : k0 = k
    · subst hk
      simp [ddel] at h
      exact ⟨List.mem_cons_of_mem _ (ih h).1, (ih h).2⟩
    · simp [ddel, hk] at h
      rcases h with h | h
      · refine ⟨by simp [h], ?_⟩
        simp [h, hk]
      · exact ⟨List.mem_cons_of_mem _ (ih h).1, (ih h).2⟩

theorem dkeys_dset_of_hit (l : List (String × α)) (k : String) (v : α)
    (h : (dget l k).isSome) : dkeys (dset l k v) = dkeys l := by
  induction l with
  | nil => simp [dget] at h
  | cons hd tl ih =>
    obtain ⟨k0, w⟩ := hd
    by_cases hk : k0 = k
    · subst hk; simp [dset, dkeys]
    · simp [dget, hk] at h
      have ihh := ih h
      simp only [dkeys] at ihh ⊢
      simp [dset, hk, ihh]

theorem dkeys_dset_of_miss (l : List (String × α)) (k : String) (v : α)
    (h : dget l k = none) : dkeys (dset l k v) = dkeys l ++ [k] := by
  induction l with
  | nil => simp [dset, dkeys]
  | cons hd tl ih =>
    obtain ⟨k0, w⟩ := hd
    by_cases hk : k0 = k
    · subst hk; simp [dget] at h
    · simp [dget, hk] at h
      have ihh := ih h
      simp only [dkeys] at ihh ⊢
      simp [dset, hk, ihh]

theorem dkeys_dset_nodup {l : List (String × α)} (k : String) (v : α)
    (h : (dkeys l).Nodup) : (dkeys (dset l k v)).Nodup := by
  cases hg : dget l k with
  | some w =>
    rw [dkeys_dset_of_hit l k v (by simp [hg])]
    exact h
  | none =>
    rw [dkeys_dset_of_miss l k v hg]
    have hk : k ∉ dkeys l := by
      intro hmem
      obtain ⟨p, hp, hpk⟩ := List.mem_map.mp hmem
      exact (dget_eq_none_iff l k).mp hg p hp hpk
    simp [List.nodup_append, h, hk]

theorem ddel_sublist (l : List (String × α)) (k : String) :
    (ddel l k).Sublist l := by
  induction l with
  | nil => simp [ddel]
  | cons hd tl ih =>
    obtain ⟨k0, v⟩ := hd
    by_cases hk : k0 = k
    · simpa [ddel, hk] using ih.cons (k0, v)
    · simpa [ddel, hk] using ih.cons₂ (k0, v)

theorem dkeys_ddel_nodup {l : List (String × α)} (k : String)
    (h : (dkeys l).Nodup) : (dkeys (ddel l k)).Nodup := by
  exact h.sublist ((ddel_sublist l k).map Prod.fst)

theorem mem_dset_key_eq {l : List (String × α)} {k : String} {v : α}
    {p : String × α} (hnd : (dkeys l).Nodup)
    (hp : p ∈ dset l k v) (hk : p.1 = k) : p = (k, v) := by
  induction l with
  | nil =>
    simpa [dset] using hp
  | cons hd tl ih =>
    obtain ⟨k0, w⟩ := hd
    rw [show dkeys ((k0, w) :: tl) = k0 :: dkeys tl from rfl] at hnd
    have hnd' := List.nodup_cons.mp hnd
    by_cases h0 : k0 = k
    · subst h0
      simp [dset] at hp
      rcases hp with hp | hp
      · simp [hp]
      · exfalso
        apply hnd'.1
        have : p.1 ∈ dkeys tl := List.mem_map.mpr ⟨p, hp, rfl⟩
        rwa [hk] at this
    · simp [dset, h0] at hp
      rcases hp with hp | hp
      · exfalso
        apply h0
        rw [← hk, hp]
      · exact ih hnd'.2 hp

theorem dset_length_of_fresh {l : List (String × α)} {k : String} (v : α)
    (h : dget l k = none) : (dset l k v).length = l.length + 1 := by
  induction l with
  | nil => simp [dset]
  | cons hd tl ih =>
    obtain ⟨k0, w⟩ := hd
    by_cases hk : k0 = k
    · subst hk; simp [dget] at h
    · simp [dget, hk] at h
      simp [dset, hk, ih h]

/-! ### `src/src/time_tracker.py`: the `TimeEntry` dataclass and `TimeTracker` -/

/-- The `TimeEntry` dataclass of `time_tracker.py`.  ISO timestamp strings are
modelled as integer seconds; `end_time` is `Optional`. -/
structure TimeEntry where
  id : String
  task_id : String
  start_time : Int
  end_time : Option Int
  description : String
  duration_seconds : Int
deriving DecidableEq

/-- The mutable state of a `TimeTracker`: the `time_entries` dict, the
`active_entry` reference (modelled by the dict key of the referenced entry —
in every state reachable through the public operations the active reference
names a stored entry whose dict key is its `id`), and the persisted file
contents together with a write counter for `save_time_entries`. -/
structure TrackerState where
  time_entries : List (String × TimeEntry)
  active_entry : Option String
  file : List (String × TimeEntry)
  saves : Nat
deriving DecidableEq

/-- `TimeTracker.save_time_entries`: serializes the whole in-memory dict to
the backing file. -/
def save_time_entries (st : TrackerState) : TrackerState :=
  { st with file := st.time_entries, saves := st.saves + 1 }

/-- `TimeTracker.stop_timer`: if no entry is active, return `None` without
touching anything; otherwise set the active entry's `end_time` to now,
its `duration_seconds` to `int((end - start).total_seconds())`, clear the
active reference, persist and return the completed entry.  The inner `none`
branch (active reference naming no stored entry) is unreachable through the
public operations. -/
def stop_timer (st : TrackerState) (now : Int) : Option TimeEntry × TrackerState :=
  match st.active_entry with
  | none => (none, st)
  | some aid =>
    match dget st.time_entries aid with
    | some e =>
      let completed : TimeEntry :=
        { e with end_time := some now, duration_seconds := now - e.start_time }
      let st' : TrackerState :=
        { st with time_entries := dset st.time_entries aid completed,
                  active_entry := none }
      (some completed, save_time_entries st')
    | none => (none, save_time_entries { st with active_entry := none })

/-- `TimeTracker.start_timer`: if an entry is active, stop it first; then
create a new entry (`uuid4` fresh id and `datetime.now()` are the `entry_id`
and `now` parameters) with a null `end_time`, store it, mark it active and
persist. -/
def start_timer (st : TrackerState) (task_id : String) (description : String)
    (now : Int) (entry_id : String) : TimeEntry × TrackerState :=
  let st0 := if st.active_entry.isSome then (stop_timer st now).2 else st
  let time_entry : TimeEntry :=
    { id := entry_id, task_id := task_id, start_time := now,
      end_time := none, description := description, duration_seconds := 0 }
  let st1 : TrackerState :=
    { st0 with time_entries := dset st0.time_entries entry_id time_entry,
               active_entry := some entry_id }
  (time_entry, save_time_entries st1)

/-- `TimeTracker.get_active_entry`. -/
def get_active_entry (st : TrackerState) : Option TimeEntry :=
  st.active_entry.bind (dget st.time_entries)

/-- `TimeTracker.delete_time_entry`: remove the entry if present (clearing
the active reference when it is the deleted one — `entry == self.active_entry`
compares dataclass values, which under the unique-id discipline of the public
operations coincides with key equality), persist and report whether a removal
happened. -/
def delete_time_entry (st : TrackerState) (entry_id : String) :
    Bool × TrackerState :=
  match dget st.time_entries entry_id with
  | none => (false, st)
  | some _ =>
    let active' := if st.active_entry = some entry_id then none else st.active_entry
    let st' : TrackerState :=
      { st with time_entries := ddel st.time_entries entry_id,
                active_entry := active' }
    (true, save_time_entries st')

/-- The `allowed_fields` list of `TimeTracker.update_time_entry`. -/
def entry_allowed_fields : List String := ["description", "start_time", "end_time"]

/-- One `setattr(entry, field, value)` for an allowed field of a `TimeEntry`.
The callers supply values of the shapes the fields hold (Python does not
check them; the embedding types the record, so a value of another shape
leaves the field as it was). -/
def applyEntryField (e : TimeEntry) (f : String) (v : PyVal) : TimeEntry :=
  if f = "description" then
    match v with
    | .vstr s => { e with description := s }
    | _ => e
  else if f = "start_time" then
    match v with
    | .vint t => { e with start_time := t }
    | _ => e
  else if f = "end_time" then
    match v with
    | .vint t => { e with end_time := some t }
    | .vnone => { e with end_time := none }
    | _ => e
  else e

/-- The `for field, value in kwargs.items()` loop of `update_time_entry`
(fields outside `allowed_fields` are skipped; `hasattr` holds for all three
allowed names). -/
def applyEntryFields (e : TimeEntry) (kwargs : List (String × PyVal)) : TimeEntry :=
  kwargs.foldl
    (fun acc p => if p.1 ∈ entry_allowed_fields then applyEntryField acc p.1 p.2 else acc)
    e

/-- `TimeTracker.update_time_entry`: `None` if the id is absent; otherwise
apply the allowed fields, recompute `duration_seconds = end - start` when
`start_time` or `end_time` was in the payload and the resulting `end_time`
is truthy (a non-null timestamp), store, persist and return the entry. -/
def update_time_entry (st : TrackerState) (entry_id : String)
    (kwargs : List (String × PyVal)) : Option TimeEntry × TrackerState :=
  match dget st.time_entries entry_id with
  | none => (none, st)
  | some entry =>
    let e1 := applyEntryFields entry kwargs
    let e2 :=
      if kwargs.any (fun p => p.1 == "start_time" || p.1 == "end_time") then
        match e1.end_time with
        | some t => { e1 with duration_seconds := t - e1.start_time }
        | none => e1
      else e1
    let st' : TrackerState :=
      { st with time_entries := dset st.time_entries entry_id e2 }
    (some e2, save_time_entries st')

/-! ### Operation sequences over a `TimeTracker` -/

/-- One call to a public mutating operation of `TimeTracker`, with the
environment inputs (`datetime.now()`, `uuid4()`) made explicit. -/
inductive TrackerOp where
  | start (task_id description : String) (now : Int) (entry_id : String)
  | stop (now : Int)
  | update (entry_id : String) (kwargs : List (String × PyVal))
  | delete (entry_id : String)
deriving DecidableEq

/-- The state transition of one operation. -/
def applyOp (st : TrackerState) : TrackerOp → TrackerState
  | .start tid d now eid => (start_timer st tid d now eid).2
  | .stop now => (stop_timer st now).2
  | .update eid kw => (update_time_entry st eid kw).2
  | .delete eid => (delete_time_entry st eid).2

/-- Run a sequence of operations. -/
def runOps (st : TrackerState) (ops : List TrackerOp) : TrackerState :=
  ops.foldl applyOp st

/-- A freshly constructed `TimeTracker` over an absent or empty data file. -/
def initState : TrackerState := ⟨[], none, [], 0⟩

/-- Number of open entries (null `end_time`) in the store. -/
def openCount (l : List (String × TimeEntry)) : Nat :=
  (l.filter (fun p => p.2.end_time.isNone)).length

/-- An `update_time_entry` payload is benign when it does not set
`end_time` to null. -/
def safeOp : TrackerOp → Bool
  | .update _ kwargs => kwargs.all (fun p => !(p.1 == "end_time" && p.2 == PyVal.vnone))
  | _ => true

/-- State invariant: dict keys are unique and every open entry is the one
the active reference names. -/
def Inv (st : TrackerState) : Prop :=
  (dkeys st.time_entries).Nodup ∧
  ∀ p ∈ st.time_entries, (p : String × TimeEntry).2.end_time = none →
    st.active_entry = some p.1

instance (st : TrackerState) : Decidable (Inv st) := by
  unfold Inv
  infer_instance

theorem inv_none_no_open {st : TrackerState} (h : Inv st)
    (ha : st.active_entry = none) :
    ∀ p ∈ st.time_entries, ¬ (p : String × TimeEntry).2.end_time = none := by
  intro p hp he
  have := h.2 p hp he
  rw [ha] at this
  cases this

theorem stop_active_none (st : TrackerState) (now : Int) :
    (stop_timer st now).2.active_entry = none := by
  unfold stop_timer
  cases hact : st.active_entry with
  | none => simpa using hact
  | some a =>
    cases hg : dget st.time_entries a with
    | some e => simp [hg, save_time_entries]
    | none => simp [hg, save_time_entries]

theorem inv_stop {st : TrackerState} (now : Int) (h : Inv st) :
    Inv (stop_timer st now).2 := by
  unfold stop_timer
  cases hact : st.active_entry with
  | none => simpa using h
  | some a =>
    cases hg : dget st.time_entries a with
    | some e =>
      simp only [hg, save_time_entries]
      constructor
      · exact dkeys_dset_nodup a _ h.1
      · intro p hp he
        rcases mem_dset hp with hp' | hp'
        · rw [hp'] at he; cases he
        · have hkey := h.2 p hp' he
          rw [hact] at hkey
          have : p.1 = a := by injection hkey with hh; exact hh.symm
          have := mem_dset_key_eq h.1 hp this
          rw [this] at he
          cases he
    | none =>
      simp only [hg, save_time_entries]
      refine ⟨h.1, ?_⟩
      intro p hp he
      have hkey := h.2 p hp he
      rw [hact] at hkey
      have hpa : p.1 = a := by injection hkey with hh; exact hh.symm
      exfalso
      have : (a, p.2) ∈ st.time_entries := by
        have : p = (a, p.2) := by
          cases p; simp_all
        rwa [this] at hp
      have := dget_isSome_of_mem this
      rw [hg] at this
      cases this

theorem stop_no_open {st : TrackerState} (now : Int) (h : Inv st) :
    ∀ p ∈ (stop_timer st now).2.time_entries,
      ¬ (p : String × TimeEntry).2.end_time = none :=
  inv_none_no_open (inv_stop now h) (stop_active_none st now)

theorem inv_start {st : TrackerState} (tid d : String) (now : Int) (nid : String)
    (h : Inv st) : Inv (start_timer st tid d now nid).2 := by
  unfold start_timer
  simp only
  set st0 := if st.active_entry.isSome then (stop_timer st now).2 else st with hst0
  have h0 : Inv st0 ∧ ∀ p ∈ st0.time_entries,
      ¬ (p : String × TimeEntry).2.end_time = none := by
    rw [hst0]
    cases hact : st.active_entry with
    | none =>
      simp only [hact, Option.isSome_none, Bool.false_eq_true, if_false]
      exact ⟨h, inv_none_no_open h hact⟩
    | some a =>
      simp only [hact, Option.isSome_some, if_true]
      exact ⟨inv_stop now h, stop_no_open now h⟩
  simp only [save_time_entries]
  constructor
  · exact dkeys_dset_nodup nid _ h0.1.1
  · intro p hp he
    rcases mem_dset hp with hp' | hp'
    · rw [hp']
    · exact absurd he (h0.2 p hp')

theorem inv_delete {st : TrackerState} (eid : String) (h : Inv st) :
    Inv (delete_time_entry st eid).2 := by
  unfold delete_time_entry
  cases hg : dget st.time_entries eid with
  | none => simpa [hg] using h
  | some e =>
    simp only [hg, save_time_entries]
    constructor
    · exact dkeys_ddel_nodup eid h.1
    · intro p hp he
      obtain ⟨hmem, hne⟩ := mem_ddel hp
      have hkey := h.2 p hmem he
      by_cases hae : st.active_entry = some eid
      · exfalso
        rw [hae] at hkey
        exact hne (by injection hkey with hh; exact hh.symm)
      · simpa [hae] using hkey

theorem applyEntryField_end_none {e : TimeEntry} {f : String} {v : PyVal}
    (hsafe : ¬ (f = "end_time" ∧ v = PyVal.vnone)) :
    (applyEntryField e f v).end_time = none → e.end_time = none := by
  intro he
  unfold applyEntryField at he
  by_cases h1 : f = "description"
  · simp only [h1, if_true] at he
    cases v <;> simpa using he
  · by_cases h2 : f = "start_time"
    · simp only [h1, h2, if_false, if_true] at he
      cases v <;> simpa using he
    · by_cases h3 : f = "end_time"
      · simp only [h1, h2, h3, if_false, if_true] at he
        cases v with
        | vstr s => simpa using he
        | vint t => simp at he
        | vnum q => simpa using he
        | vnone => exact absurd ⟨h3, rfl⟩ hsafe
      · simpa [h1, h2, h3] using he

theorem applyEntryFields_end_none {kwargs : List (String × PyVal)}
    (hsafe : kwargs.all
      (fun p => !(p.1 == "end_time" && p.2 == PyVal.vnone)) = true) :
    ∀ {e : TimeEntry}, (applyEntryFields e kwargs).end_time = none →
      e.end_time = none := by
  induction kwargs with
  | nil => intro e he; simpa [applyEntryFields] using he
  | cons hd tl ih =>
    intro e he
    obtain ⟨f, v⟩ := hd
    simp only [List.all_cons, Bool.and_eq_true] at hsafe
    have hhd : ¬ (f = "end_time" ∧ v = PyVal.vnone) := by
      intro ⟨hf, hv⟩
      rw [hf, hv] at hsafe
      simpa using hsafe.1
    have hstep : (applyEntryFields
        (if f ∈ entry_allowed_fields then applyEntryField e f v else e)
        tl).end_time = none := by
      simpa [applyEntryFields] using he
    have h1 := ih hsafe.2 hstep
    by_cases hmem : f ∈ entry_allowed_fields
    · rw [if_pos hmem] at h1
      exact applyEntryField_end_none hhd h1
    · rwa [if_neg hmem] at h1

theorem inv_update {st : TrackerState} (eid : String)
    (kwargs : List (String × PyVal))
    (hsafe : kwargs.all
      (fun p => !(p.1 == "end_time" && p.2 == PyVal.vnone)) = true)
    (h : Inv st) : Inv (update_time_entry st eid kwargs).2 := by
  unfold update_time_entry
  cases hg : dget st.time_entries eid with
  | none => simpa [hg] using h
  | some e =>
    simp only [hg, save_time_entries]
    set e1 := applyEntryFields e kwargs with he1
    set e2 := if kwargs.any (fun p => p.1 == "start_time" || p.1 == "end_time") then
        match e1.end_time with
        | some t => { e1 with duration_seconds := t - e1.start_time }
        | none => e1
      else e1 with he2
    constructor
    · exact dkeys_dset_nodup eid _ h.1
    · intro p hp hpe
      rcases mem_dset hp with hp' | hp'
      · have he2none : e2.end_time = none := by rw [hp'] at hpe; exact hpe
        have he1none : e1.end_time = none := by
          rw [he2] at he2none
          by_cases hany : kwargs.any
              (fun p => p.1 == "start_time" || p.1 == "end_time") = true
          · rw [if_pos hany] at he2none
            cases ht : e1.end_time with
            | none => rfl
            | some t => rw [ht] at he2none; simp at he2none
          · rwa [if_neg hany] at he2none
        have heno : e.end_time = none := applyEntryFields_end_none hsafe (he1 ▸ he1none)
        have := h.2 (eid, e) (dget_mem hg) heno
        rw [hp']
        exact this
      · exact h.2 p hp' hpe

theorem inv_applyOp {st : TrackerState} {op : TrackerOp}
    (hsafe : safeOp op = true) (h : Inv st) : Inv (applyOp st op) := by
  cases op with
  | start tid d now eid => exact inv_start tid d now eid h
  | stop now => exact inv_stop now h
  | update eid kwargs => exact inv_update eid kwargs (by simpa [safeOp] using hsafe) h
  | delete eid => exact inv_delete eid h

theorem inv_runOps {st : TrackerState} {ops : List TrackerOp}
    (hsafe : ∀ op ∈ ops, safeOp op = true) (h : Inv st) :
    Inv (runOps st ops) := by
  induction ops generalizing st with
  | nil => simpa [runOps] using h
  | cons hd tl ih =>
    have h1 : Inv (applyOp st hd) := inv_applyOp (hsafe hd (by simp)) h
    have := ih (fun op hop => hsafe op (List.mem_cons_of_mem _ hop)) h1
    simpa [runOps, List.foldl_cons] using this

theorem filter_keyconst_len_le_one (a : String) {l : List (String × TimeEntry)}
    {q : String × TimeEntry → Bool}
    (hnd : (dkeys l).Nodup) (hall : ∀ p ∈ l, q p = true → p.1 = a) :
    (l.filter q).length ≤ 1 := by
  induction l with
  | nil => simp
  | cons hd tl ih =>
    rw [show dkeys (hd :: tl) = hd.1 :: dkeys tl from rfl] at hnd
    have hnd' := List.nodup_cons.mp hnd
    cases hq : q hd with
    | true =>
      have hka : hd.1 = a := hall hd (by simp) hq
      have hnil : tl.filter q = [] := by
        rw [List.filter_eq_nil_iff]
        intro p hp hqp
        have hpa : p.1 = a := hall p (List.mem_cons_of_mem _ hp) hqp
        exact absurd (List.mem_map.mpr ⟨p, hp, (hpa.trans hka.symm)⟩) hnd'.1
      simp [List.filter_cons, hq, hnil]
    | false =>
      simp only [List.filter_cons, hq, Bool.false_eq_true, if_false]
      exact ih hnd'.2 (fun p hp hqp => hall p (List.mem_cons_of_mem _ hp) hqp)

/-! ### `src/src/task_manager.py`: entities and managers -/

/-- The `Task` dataclass of `task_manager.py` (normalized variant).  `hours`
is a Python float, modelled as an exact rational; the generated ISO
timestamp strings stay strings. -/
structure Task where
  id : String
  customer_id : String
  department_id : String
  date : String
  hours : ℚ
  description : String
  created_at : String
  updated_at : String
deriving DecidableEq

/-- The `Customer` dataclass of `task_manager.py`. -/
structure Customer where
  id : String
  name : String
  email : String
  phone : String
  address : String
  created_at : String
  updated_at : String
deriving DecidableEq

/-- The `Department` dataclass of `task_manager.py`. -/
structure Department where
  id : String
  name : String
  customer_id : String
  description : String
  created_at : String
  updated_at : String
deriving DecidableEq

/-- `TaskManager` state: the `tasks` dict plus the persisted file model. -/
structure TaskManagerState where
  tasks : List (String × Task)
  file : List (String × Task)
  saves : Nat
deriving DecidableEq

/-- `CustomerManager` state. -/
structure CustomerManagerState where
  customers : List (String × Customer)
  file : List (String × Customer)
  saves : Nat
deriving DecidableEq

/-- `DepartmentManager` state. -/
structure DepartmentManagerState where
  departments : List (String × Department)
  file : List (String × Department)
  saves : Nat
deriving DecidableEq

/-- `TaskManager.save_tasks`. -/
def save_tasks (st : TaskManagerState) : TaskManagerState :=
  { st with file := st.tasks, saves := st.saves + 1 }

/-- `CustomerManager.save_customers`. -/
def save_customers (st : CustomerManagerState) : CustomerManagerState :=
  { st with file := st.customers, saves := st.saves + 1 }

/-- `DepartmentManager.save_departments`. -/
def save_departments (st : DepartmentManagerState) : DepartmentManagerState :=
  { st with file := st.departments, saves := st.saves + 1 }

/-- The `allowed_fields` list of `TaskManager.update_task`. -/
def task_allowed_fields : List String :=
  ["customer_id", "department_id", "date", "hours", "description"]

/-- The `allowed_fields` list of `CustomerManager.update_customer`. -/
def customer_allowed_fields : List String := ["name", "email", "phone", "address"]

/-- The `allowed_fields` list of `DepartmentManager.update_department`. -/
def department_allowed_fields : List String := ["name", "customer_id", "description"]

/-- One `setattr(task, field, value)` for an allowed field of a `Task`
(value shapes as held by the fields; `hasattr` is true for every allowed
name). -/
def applyTaskField (t : Task) (f : String) (v : PyVal) : Task :=
  if f = "customer_id" then
    match v with | .vstr s => { t with customer_id := s } | _ => t
  else if f = "department_id" then
    match v with | .vstr s => { t with department_id := s } | _ => t
  else if f = "date" then
    match v with | .vstr s => { t with date := s } | _ => t
  else if f = "hours" then
    match v with | .vnum q => { t with hours := q } | _ => t
  else if f = "description" then
    match v with | .vstr s => { t with description := s } | _ => t
  else t

/-- The allow-list loop of `update_task`. -/
def applyTaskFields (t : Task) (kwargs : List (String × PyVal)) : Task :=
  kwargs.foldl
    (fun acc p => if p.1 ∈ task_allowed_fields then applyTaskField acc p.1 p.2 else acc)
    t

/-- One `setattr(customer, field, value)` for an allowed field of a
`Customer`. -/
def applyCustomerField (c : Customer) (f : String) (v : PyVal) : Customer :=
  if f = "name" then
    match v with | .vstr s => { c with name := s } | _ => c
  else if f = "email" then
    match v with | .vstr s => { c with email := s } | _ => c
  else if f = "phone" then
    match v with | .vstr s => { c with phone := s } | _ => c
  else if f = "address" then
    match v with | .vstr s => { c with address := s } | _ => c
  else c

/-- The allow-list loop of `update_customer`. -/
def applyCustomerFields (c : Customer) (kwargs : List (String × PyVal)) : Customer :=
  kwargs.foldl
    (fun acc p =>
      if p.1 ∈ customer_allowed_fields then applyCustomerField acc p.1 p.2 else acc)
    c

/-- One `setattr(department, field, value)` for an allowed field of a
`Department`. -/
def applyDepartmentField (d : Department) (f : String) (v : PyVal) : Department :=
  if f = "name" then
    match v with | .vstr s => { d with name := s } | _ => d
  else if f = "customer_id" then
    match v with | .vstr s => { d with customer_id := s } | _ => d
  else if f = "description" then
    match v with | .vstr s => { d with description := s } | _ => d
  else d

/-- The allow-list loop of `update_department`. -/
def applyDepartmentFields (d : Department) (kwargs : List (String × PyVal)) :
    Department :=
  kwargs.foldl
    (fun acc p =>
      if p.1 ∈ department_allowed_fields then applyDepartmentField acc p.1 p.2 else acc)
    d

/-- `TaskManager.create_task` (`uuid4` and `datetime.now().isoformat()` are
the `task_id` and `now` parameters). -/
def create_task (st : TaskManagerState) (customer_id department_id date : String)
    (hours : ℚ) (description : String) (now task_id : String) :
    Task × TaskManagerState :=
  let task : Task :=
    { id := task_id, customer_id := customer_id, department_id := department_id,
      date := date, hours := hours, description := description,
      created_at := now, updated_at := now }
  (task, save_tasks { st with tasks := dset st.tasks task_id task })

/-- `TaskManager.get_task`. -/
def get_task (st : TaskManagerState) (task_id : String) : Option Task :=
  dget st.tasks task_id

/-- `TaskManager.update_task`: `None` if the id is absent; otherwise apply
the allowed fields, refresh `updated_at` to now, persist and return the
task. -/
def update_task (st : TaskManagerState) (task_id : String)
    (kwargs : List (String × PyVal)) (now : String) :
    Option Task × TaskManagerState :=
  match dget st.tasks task_id with
  | none => (none, st)
  | some task =>
    let t2 := { applyTaskFields task kwargs with updated_at := now }
    (some t2, save_tasks { st with tasks := dset st.tasks task_id t2 })

/-- `TaskManager.delete_task`. -/
def delete_task (st : TaskManagerState) (task_id : String) :
    Bool × TaskManagerState :=
  match dget st.tasks task_id with
  | none => (false, st)
  | some _ => (true, save_tasks { st with tasks := ddel st.tasks task_id })

/-- `CustomerManager.update_customer`. -/
def update_customer (st : CustomerManagerState) (customer_id : String)
    (kwargs : List (String × PyVal)) (now : String) :
    Option Customer × CustomerManagerState :=
  match dget st.customers customer_id with
  | none => (none, st)
  | some customer =>
    let c2 := { applyCustomerFields customer kwargs with updated_at := now }
    (some c2, save_customers { st with customers := dset st.customers customer_id c2 })

/-- `DepartmentManager.update_department`. -/
def update_department (st : DepartmentManagerState) (department_id : String)
    (kwargs : List (String × PyVal)) (now : String) :
    Option Department × DepartmentManagerState :=
  match dget st.departments department_id with
  | none => (none, st)
  | some department =>
    let d2 := { applyDepartmentFields department kwargs with updated_at := now }
    (some d2,
      save_departments { st with departments := dset st.departments department_id d2 })

/-- `TaskManager.get_all_tasks` (`list(self.tasks.values())`). -/
def get_all_tasks (st : TaskManagerState) : List Task := st.tasks.map Prod.snd

/-- `TaskManager.get_tasks_by_customer`. -/
def get_tasks_by_customer (st : TaskManagerState) (customer_id : String) :
    List Task :=
  (get_all_tasks st).filter (fun t => t.customer_id == customer_id)

/-- `TaskManager.get_tasks_by_department`. -/
def get_tasks_by_department (st : TaskManagerState) (department_id : String) :
    List Task :=
  (get_all_tasks st).filter (fun t => t.department_id == department_id)

/-- `CustomerManager.get_all_customers`. -/
def get_all_customers (st : CustomerManagerState) : List Customer :=
  st.customers.map Prod.snd

/-- `CustomerManager.get_customer`. -/
def get_customer (st : CustomerManagerState) (customer_id : String) :
    Option Customer :=
  dget st.customers customer_id

/-- `DepartmentManager.get_all_departments`. -/
def get_all_departments (st : DepartmentManagerState) : List Department :=
  st.departments.map Prod.snd

/-! ### `src/web_app.py`: the hours reports -/

/-- One row of the customer hours report built by `report_customers`. -/
structure CustomerReportItem where
  customer : String
  total_hours : ℚ
  task_count : Nat
  percentage : ℚ
deriving DecidableEq

/-- One row of the department hours report built by `report_departments`. -/
structure DepartmentReportItem where
  department : String
  customer : String
  total_hours : ℚ
  task_count : Nat
  percentage : ℚ
deriving DecidableEq

/-- Stable insertion for a descending order by a rational key: the new
element goes after every element whose key is at least its own. -/
def insertDescBy (key : α → ℚ) (x : α) : List α → List α
  | [] => [x]
  | y :: ys => if key y < key x then x :: y :: ys else y :: insertDescBy key x ys

/-- Python's `list.sort(key=…, reverse=True)`: the stable descending sort by
the given key.  The stable descending arrangement of a list is unique, so
any stable algorithm computes the same function; this one is a stable
insertion sort, which the kernel can evaluate. -/
def sortDescBy (key : α → ℚ) (l : List α) : List α :=
  l.foldl (fun acc x => insertDescBy key x acc) []

theorem insertDescBy_perm (key : α → ℚ) (x : α) (l : List α) :
    (insertDescBy key x l).Perm (x :: l) := by
  induction l with
  | nil => simp [insertDescBy]
  | cons y ys ih =>
    unfold insertDescBy
    by_cases h : key y < key x
    · simp [h]
    · simp only [h, if_false]
      exact (ih.cons y).trans (List.Perm.swap x y ys)

theorem foldl_insertDescBy_perm (key : α → ℚ) (l acc : List α) :
    (l.foldl (fun acc x => insertDescBy key x acc) acc).Perm (acc ++ l) := by
  induction l generalizing acc with
  | nil => simp
  | cons x xs ih =>
    simp only [List.foldl_cons]
    refine (ih (insertDescBy key x acc)).trans ?_
    refine (List.Perm.append_right xs (insertDescBy_perm key x acc)).trans ?_
    exact List.perm_middle.symm

theorem sortDescBy_perm (key : α → ℚ) (l : List α) :
    (sortDescBy key l).Perm l := by
  simpa [sortDescBy] using foldl_insertDescBy_perm key l []

/-- The `customer_data` accumulation loop of `report_customers`: one row per
customer with positive total hours, created with percentage 0. -/
def customer_rows (cm : CustomerManagerState) (tm : TaskManagerState) :
    List CustomerReportItem :=
  (get_all_customers cm).filterMap (fun c =>
    let tasks := get_tasks_by_customer tm c.id
    let total_hours := (tasks.map Task.hours).sum
    if 0 < total_hours then
      some { customer := c.name, total_hours := total_hours,
             task_count := tasks.length, percentage := 0 }
    else none)

/-- `report_customers` of `web_app.py`: keep customers with positive total
hours, sort by hours descending, then fill in each row's percentage of the
grand total unless the grand total is zero. -/
def report_customers (cm : CustomerManagerState) (tm : TaskManagerState) :
    List CustomerReportItem :=
  let sorted := sortDescBy CustomerReportItem.total_hours (customer_rows cm tm)
  let total_all_hours := (sorted.map CustomerReportItem.total_hours).sum
  if 0 < total_all_hours then
    sorted.map (fun item =>
      { item with percentage := item.total_hours / total_all_hours * 100 })
  else sorted

/-- The `department_data` accumulation loop of `report_departments` (the
customer column resolves the owning customer's name, defaulting to
`"Unknown"`). -/
def department_rows (dm : DepartmentManagerState) (cm : CustomerManagerState)
    (tm : TaskManagerState) : List DepartmentReportItem :=
  (get_all_departments dm).filterMap (fun d =>
    let tasks := get_tasks_by_department tm d.id
    let total_hours := (tasks.map Task.hours).sum
    if 0 < total_hours then
      some { department := d.name,
             customer := ((get_customer cm d.customer_id).map Customer.name).getD "Unknown",
             total_hours := total_hours, task_count := tasks.length, percentage := 0 }
    else none)

/-- `report_departments` of `web_app.py`. -/
def report_departments (dm : DepartmentManagerState) (cm : CustomerManagerState)
    (tm : TaskManagerState) : List DepartmentReportItem :=
  let sorted := sortDescBy DepartmentReportItem.total_hours (department_rows dm cm tm)
  let total_all_hours := (sorted.map DepartmentReportItem.total_hours).sum
  if 0 < total_all_hours then
    sorted.map (fun item =>
      { item with percentage := item.total_hours / total_all_hours * 100 })
  else sorted

/-! ### The load paths (`load_tasks`, `load_time_entries`)

`json.load` yields for these files an object of objects: a list of
(identifier, record) pairs where a record is a field map.  `from_dict` is
`cls(**data)`, which raises `TypeError` when a required field is missing or
an unexpected field is present (Python raises at the call, without checking
value types).  The surrounding `try` catches exactly `json.JSONDecodeError`
and `KeyError`. -/

/-- A parsed JSON record: a map from field names to values. -/
abbrev RawRecord := List (String × PyVal)

/-- The Python exceptions that can reach the `except` clause of the load
functions. -/
inductive PyError where
  | jsonDecodeError
  | keyError
  | typeError
deriving DecidableEq

/-- What the backing file holds: absent, undecodable JSON
(`json.JSONDecodeError` from `json.load`), or a parsed object of records. -/
inductive FileData where
  | missing
  | invalidJson
  | parsed (records : List (String × RawRecord))
deriving DecidableEq

/-- `cls(**data)` with required and defaulted (optional) dataclass fields:
`TypeError` unless every required field is present and no key falls outside
the field list; the constructed value is represented by its field map (the
`asdict` form). -/
def from_dict_check (required optional : List String) (r : RawRecord) :
    Except PyError RawRecord :=
  if required.all (fun k => (dkeys r).contains k) &&
      (dkeys r).all (fun k => (required ++ optional).contains k) then
    .ok r
  else
    .error .typeError

/-- The required dataclass fields of `Task` (none have defaults). -/
def task_required_keys : List String :=
  ["id", "customer_id", "department_id", "date", "hours", "description",
   "created_at", "updated_at"]

/-- `Task.from_dict`. -/
def task_from_dict (r : RawRecord) : Except PyError RawRecord :=
  from_dict_check task_required_keys [] r

/-- The required dataclass fields of `TimeEntry` (`duration_seconds`
defaults to 0). -/
def time_entry_required_keys : List String :=
  ["id", "task_id", "start_time", "end_time", "description"]

/-- The defaulted dataclass fields of `TimeEntry`. -/
def time_entry_optional_keys : List String := ["duration_seconds"]

/-- `TimeEntry.from_dict`. -/
def time_entry_from_dict (r : RawRecord) : Except PyError RawRecord :=
  from_dict_check time_entry_required_keys time_entry_optional_keys r

/-- The dict comprehension of the load functions: convert each record in
order; the first failing `from_dict` raises out of the comprehension. -/
def load_items (fromDict : RawRecord → Except PyError RawRecord) :
    List (String × RawRecord) → Except PyError (List (String × RawRecord))
  | [] => .ok []
  | (k, r) :: rest =>
    match fromDict r with
    | .error e => .error e
    | .ok v =>
      match load_items fromDict rest with
      | .error e => .error e
      | .ok vs => .ok ((k, v) :: vs)

/-- `TaskManager.load_tasks`: an absent file leaves the initial empty store;
the `try` block parses and converts; `json.JSONDecodeError` and `KeyError`
are caught, logged and leave an empty store; any other exception
propagates. -/
def load_tasks (fd : FileData) : Except PyError (List (String × RawRecord)) :=
  match fd with
  | .missing => .ok []
  | .invalidJson => .ok []
  | .parsed records =>
    match load_items task_from_dict records with
    | .ok tasks => .ok tasks
    | .error e =>
      if e = PyError.jsonDecodeError ∨ e = PyError.keyError then .ok []
      else .error e

/-- `TimeTracker.load_time_entries`: as `load_tasks`, and additionally scan
for the first loaded entry whose `end_time` is null to become the active
entry. -/
def load_time_entries (fd : FileData) :
    Except PyError (List (String × RawRecord) × Option String) :=
  match fd with
  | .missing => .ok ([], none)
  | .invalidJson => .ok ([], none)
  | .parsed records =>
    match load_items time_entry_from_dict records with
    | .ok entries =>
      .ok (entries,
        (entries.find? (fun p => dget p.2 "end_time" == some PyVal.vnone)).map Prod.fst)
    | .error e =>
      if e = PyError.jsonDecodeError ∨ e = PyError.keyError then .ok ([], none)
      else .error e

theorem load_items_error (fromDict : RawRecord → Except PyError RawRecord)
    (honly : ∀ r e, fromDict r = .error e → e = PyError.typeError)
    (records : List (String × RawRecord))
    (hbad : ∃ p ∈ records, ∃ e, fromDict p.2 = .error e) :
    load_items fromDict records = .error .typeError := by
  induction records with
  | nil => simp at hbad
  | cons hd tl ih =>
    obtain ⟨k, r⟩ := hd
    cases hfd : fromDict r with
    | error e =>
      have := honly r e hfd
      subst this
      simp [load_items, hfd]
    | ok v =>
      obtain ⟨p, hp, e, hpe⟩ := hbad
      rcases List.mem_cons.mp hp with hp' | hp'
      · exfalso
        rw [hp'] at hpe
        rw [hfd] at hpe
        cases hpe
      · have := ih ⟨p, hp', e, hpe⟩
        simp [load_items, hfd, this]

theorem dset_length_of_hit {l : List (String × α)} {k : String} (v : α)
    (h : (dget l k).isSome) : (dset l k v).length = l.length := by
  induction l with
  | nil => simp [dget] at h
  | cons hd tl ih =>
    obtain ⟨k0, w⟩ := hd
    by_cases hk : k0 = k
    · subst hk; simp [dset]
    · simp [dget, hk] at h
      simp [dset, hk, ih h]

theorem applyEntryField_start_of_ne {e : TimeEntry} {f : String} {v : PyVal}
    (hf : f ≠ "start_time") :
    (applyEntryField e f v).start_time = e.start_time := by
  unfold applyEntryField
  by_cases h1 : f = "description"
  · simp only [if_pos h1]
    cases v <;> rfl
  · simp only [if_neg h1, if_neg hf]
    by_cases h3 : f = "end_time"
    · simp only [if_pos h3]
      cases v <;> rfl
    · simp only [if_neg h3]

theorem applyEntryField_end_of_ne {e : TimeEntry} {f : String} {v : PyVal}
    (hf : f ≠ "end_time") :
    (applyEntryField e f v).end_time = e.end_time := by
  unfold applyEntryField
  by_cases h1 : f = "description"
  · simp only [if_pos h1]
    cases v <;> rfl
  · simp only [if_neg h1]
    by_cases h2 : f = "start_time"
    · simp only [if_pos h2]
      cases v <;> rfl
    · simp only [if_neg h2, if_neg hf]

theorem applyEntryFields_start_of_absent {kwargs : List (String × PyVal)}
    (h : ∀ p ∈ kwargs, p.1 ≠ "start_time") :
    ∀ {e : TimeEntry}, (applyEntryFields e kwargs).start_time = e.start_time := by
  induction kwargs with
  | nil => intro e; rfl
  | cons hd tl ih =>
    intro e
    have hstep : applyEntryFields e (hd :: tl) =
        applyEntryFields
          (if hd.1 ∈ entry_allowed_fields then applyEntryField e hd.1 hd.2 else e)
          tl := rfl
    rw [hstep, ih (fun p hp => h p (List.mem_cons_of_mem _ hp))]
    by_cases hmem : hd.1 ∈ entry_allowed_fields
    · rw [if_pos hmem]
      exact applyEntryField_start_of_ne (h hd (by simp))
    · rw [if_neg hmem]

theorem applyEntryFields_end_of_absent {kwargs : List (String × PyVal)}
    (h : ∀ p ∈ kwargs, p.1 ≠ "end_time") :
    ∀ {e : TimeEntry}, (applyEntryFields e kwargs).end_time = e.end_time := by
  induction kwargs with
  | nil => intro e; rfl
  | cons hd tl ih =>
    intro e
    have hstep : applyEntryFields e (hd :: tl) =
        applyEntryFields
          (if hd.1 ∈ entry_allowed_fields then applyEntryField e hd.1 hd.2 else e)
          tl := rfl
    rw [hstep, ih (fun p hp => h p (List.mem_cons_of_mem _ hp))]
    by_cases hmem : hd.1 ∈ entry_allowed_fields
    · rw [if_pos hmem]
      exact applyEntryField_end_of_ne (h hd (by simp))
    · rw [if_neg hmem]

theorem applyTaskField_frame (t : Task) (f : String) (v : PyVal) :
    (applyTaskField t f v).id = t.id ∧
    (applyTaskField t f v).created_at = t.created_at := by
  unfold applyTaskField
  by_cases h1 : f = "customer_id"
  · simp only [if_pos h1]; cases v <;> exact ⟨rfl, rfl⟩
  · simp only [if_neg h1]
    by_cases h2 : f = "department_id"
    · simp only [if_pos h2]; cases v <;> exact ⟨rfl, rfl⟩
    · simp only [if_neg h2]
      by_cases h3 : f = "date"
      · simp only [if_pos h3]; cases v <;> exact ⟨rfl, rfl⟩
      · simp only [if_neg h3]
        by_cases h4 : f = "hours"
        · simp only [if_pos h4]; cases v <;> exact ⟨rfl, rfl⟩
        · simp only [if_neg h4]
          by_cases h5 : f = "description"
          · simp only [if_pos h5]; cases v <;> exact ⟨rfl, rfl⟩
          · rw [if_neg h5]; exact ⟨rfl, rfl⟩

theorem applyTaskFields_frame (kwargs : List (String × PyVal)) :
    ∀ t : Task, (applyTaskFields t kwargs).id = t.id ∧
      (applyTaskFields t kwargs).created_at = t.created_at := by
  induction kwargs with
  | nil => intro t; exact ⟨rfl, rfl⟩
  | cons hd tl ih =>
    intro t
    have hstep : applyTaskFields t (hd :: tl) =
        applyTaskFields
          (if hd.1 ∈ task_allowed_fields then applyTaskField t hd.1 hd.2 else t)
          tl := rfl
    rw [hstep]
    have h1 : (if hd.1 ∈ task_allowed_fields then applyTaskField t hd.1 hd.2 else t).id
          = t.id ∧
        (if hd.1 ∈ task_allowed_fields then applyTaskField t hd.1 hd.2 else t).created_at
          = t.created_at := by
      by_cases hmem : hd.1 ∈ task_allowed_fields
      · simp only [if_pos hmem]
        exact applyTaskField_frame t hd.1 hd.2
      · rw [if_neg hmem]; exact ⟨rfl, rfl⟩
    exact ⟨(ih _).1.trans h1.1, (ih _).2.trans h1.2⟩

theorem applyCustomerField_frame (c : Customer) (f : String) (v : PyVal) :
    (applyCustomerField c f v).id = c.id ∧
    (applyCustomerField c f v).created_at = c.created_at := by
  unfold applyCustomerField
  by_cases h1 : f = "name"
  · simp only [if_pos h1]; cases v <;> exact ⟨rfl, rfl⟩
  · simp only [if_neg h1]
    by_cases h2 : f = "email"
    · simp only [if_pos h2]; cases v <;> exact ⟨rfl, rfl⟩
    · simp only [if_neg h2]
      by_cases h3 : f = "phone"
      · simp only [if_pos h3]; cases v <;> exact ⟨rfl, rfl⟩
      · simp only [if_neg h3]
        by_cases h4 : f = "address"
        · simp only [if_pos h4]; cases v <;> exact ⟨rfl, rfl⟩
        · rw [if_neg h4]; exact ⟨rfl, rfl⟩

theorem applyCustomerFields_frame (kwargs : List (String × PyVal)) :
    ∀ c : Customer, (applyCustomerFields c kwargs).id = c.id ∧
      (applyCustomerFields c kwargs).created_at = c.created_at := by
  induction kwargs with
  | nil => intro c; exact ⟨rfl, rfl⟩
  | cons hd tl ih =>
    intro c
    have hstep : applyCustomerFields c (hd :: tl) =
        applyCustomerFields
          (if hd.1 ∈ customer_allowed_fields then applyCustomerField c hd.1 hd.2 else c)
          tl := rfl
    rw [hstep]
    have h1 : (if hd.1 ∈ customer_allowed_fields then applyCustomerField c hd.1 hd.2
            else c).id = c.id ∧
        (if hd.1 ∈ customer_allowed_fields then applyCustomerField c hd.1 hd.2
            else c).created_at = c.created_at := by
      by_cases hmem : hd.1 ∈ customer_allowed_fields
      · simp only [if_pos hmem]
        exact applyCustomerField_frame c hd.1 hd.2
      · rw [if_neg hmem]; exact ⟨rfl, rfl⟩
    exact ⟨(ih _).1.trans h1.1, (ih _).2.trans h1.2⟩

theorem applyDepartmentField_frame (d : Department) (f : String) (v : PyVal) :
    (applyDepartmentField d f v).id = d.id ∧
    (applyDepartmentField d f v).created_at = d.created_at := by
  unfold applyDepartmentField
  by_cases h1 : f = "name"
  · simp only [if_pos h1]; cases v <;> exact ⟨rfl, rfl⟩
  · simp only [if_neg h1]
    by_cases h2 : f = "customer_id"
    · simp only [if_pos h2]; cases v <;> exact ⟨rfl, rfl⟩
    · simp only [if_neg h2]
      by_cases h3 : f = "description"
      · simp only [if_pos h3]; cases v <;> exact ⟨rfl, rfl⟩
      · rw [if_neg h3]; exact ⟨rfl, rfl⟩

theorem applyDepartmentFields_frame (kwargs : List (String × PyVal)) :
    ∀ d : Department, (applyDepartmentFields d kwargs).id = d.id ∧
      (applyDepartmentFields d kwargs).created_at = d.created_at := by
  induction kwargs with
  | nil => intro d; exact ⟨rfl, rfl⟩
  | cons hd tl ih =>
    intro d
    have hstep : applyDepartmentFields d (hd :: tl) =
        applyDepartmentFields
          (if hd.1 ∈ department_allowed_fields then applyDepartmentField d hd.1 hd.2 else d)
          tl := rfl
    rw [hstep]
    have h1 : (if hd.1 ∈ department_allowed_fields then applyDepartmentField d hd.1 hd.2
            else d).id = d.id ∧
        (if hd.1 ∈ department_allowed_fields then applyDepartmentField d hd.1 hd.2
            else d).created_at = d.created_at := by
      by_cases hmem : hd.1 ∈ department_allowed_fields
      · simp only [if_pos hmem]
        exact applyDepartmentField_frame d hd.1 hd.2
      · rw [if_neg hmem]; exact ⟨rfl, rfl⟩
    exact ⟨(ih _).1.trans h1.1, (ih _).2.trans h1.2⟩

theorem applyTaskFields_of_forbidden {kwargs : List (String × PyVal)}
    (h : ∀ p ∈ kwargs, p.1 ∉ task_allowed_fields) :
    ∀ t : Task, applyTaskFields t kwargs = t := by
  induction kwargs with
  | nil => intro t; rfl
  | cons hd tl ih =>
    intro t
    have hstep : applyTaskFields t (hd :: tl) =
        applyTaskFields
          (if hd.1 ∈ task_allowed_fields then applyTaskField t hd.1 hd.2 else t)
          tl := rfl
    rw [hstep, if_neg (h hd (by simp))]
    exact ih (fun p hp => h p (List.mem_cons_of_mem _ hp)) t

theorem applyTaskFields_filter (kwargs : List (String × PyVal)) :
    ∀ t : Task, applyTaskFields t kwargs =
      applyTaskFields t
        (kwargs.filter (fun p => decide (p.1 ∈ task_allowed_fields))) := by
  induction kwargs with
  | nil => intro t; rfl
  | cons hd tl ih =>
    intro t
    by_cases hmem : hd.1 ∈ task_allowed_fields
    · have hf : (hd :: tl).filter (fun p => decide (p.1 ∈ task_allowed_fields)) =
          hd :: tl.filter (fun p => decide (p.1 ∈ task_allowed_fields)) := by
        simp [List.filter_cons, hmem]
      rw [hf]
      show applyTaskFields
          (if hd.1 ∈ task_allowed_fields then applyTaskField t hd.1 hd.2 else t) tl =
        applyTaskFields
          (if hd.1 ∈ task_allowed_fields then applyTaskField t hd.1 hd.2 else t)
          (tl.filter (fun p => decide (p.1 ∈ task_allowed_fields)))
      exact ih _
    · have hf : (hd :: tl).filter (fun p => decide (p.1 ∈ task_allowed_fields)) =
          tl.filter (fun p => decide (p.1 ∈ task_allowed_fields)) := by
        simp [List.filter_cons, hmem]
      rw [hf]
      show applyTaskFields
          (if hd.1 ∈ task_allowed_fields then applyTaskField t hd.1 hd.2 else t) tl =
        applyTaskFields t
          (tl.filter (fun p => decide (p.1 ∈ task_allowed_fields)))
      rw [if_neg hmem]
      exact ih t

theorem applyCustomerFields_filter (kwargs : List (String × PyVal)) :
    ∀ c : Customer, applyCustomerFields c kwargs =
      applyCustomerFields c
        (kwargs.filter (fun p => decide (p.1 ∈ customer_allowed_fields))) := by
  induction kwargs with
  | nil => intro c; rfl
  | cons hd tl ih =>
    intro c
    by_cases hmem : hd.1 ∈ customer_allowed_fields
    · have hf : (hd :: tl).filter (fun p => decide (p.1 ∈ customer_allowed_fields)) =
          hd :: tl.filter (fun p => decide (p.1 ∈ customer_allowed_fields)) := by
        simp [List.filter_cons, hmem]
      rw [hf]
      show applyCustomerFields
          (if hd.1 ∈ customer_allowed_fields then applyCustomerField c hd.1 hd.2 else c) tl =
        applyCustomerFields
          (if hd.1 ∈ customer_allowed_fields then applyCustomerField c hd.1 hd.2 else c)
          (tl.filter (fun p => decide (p.1 ∈ customer_allowed_fields)))
      exact ih _
    · have hf : (hd :: tl).filter (fun p => decide (p.1 ∈ customer_allowed_fields)) =
          tl.filter (fun p => decide (p.1 ∈ customer_allowed_fields)) := by
        simp [List.filter_cons, hmem]
      rw [hf]
      show applyCustomerFields
          (if hd.1 ∈ customer_allowed_fields then applyCustomerField c hd.1 hd.2 else c) tl =
        applyCustomerFields c
          (tl.filter (fun p => decide (p.1 ∈ customer_allowed_fields)))
      rw [if_neg hmem]
      exact ih c

theorem sum_map_div_mul (l : List ℚ) (g : ℚ) :
    (l.map (fun t => t / g * 100)).sum = l.sum / g * 100 := by
  induction l with
  | nil => simp
  | cons hd tl ih =>
    simp only [List.map_cons, List.sum_cons, ih]
    ring

theorem from_dict_check_error {required optional : List String} {r : RawRecord}
    {e : PyError} (h : from_dict_check required optional r = .error e) :
    e = PyError.typeError := by
  by_cases hc : (required.all (fun k => (dkeys r).contains k) &&
      (dkeys r).all (fun k => (required ++ optional).contains k)) = true
  · unfold from_dict_check at h
    rw [if_pos hc] at h
    cases h
  · unfold from_dict_check at h
    rw [if_neg hc] at h
    injection h with h'
    exact h'.symm

theorem openCount_le_one_of_inv {st : TrackerState} (h : Inv st) :
    openCount st.time_entries ≤ 1 := by
  unfold openCount
  cases hact : st.active_entry with
  | none =>
    have : st.time_entries.filter (fun p => p.2.end_time.isNone) = [] := by
      rw [List.filter_eq_nil_iff]
      intro p hp hq
      exact inv_none_no_open h hact p hp (Option.isNone_iff_eq_none.mp hq)
    simp [this]
  | some a =>
    refine filter_keyconst_len_le_one a h.1 ?_
    intro p hp hq
    have := h.2 p hp (Option.isNone_iff_eq_none.mp hq)
    rw [hact] at this
    injection this with hh
    exact hh.symm

/-! ## Concrete fixtures -/

/-- A concrete open entry, as created by `start_timer "T" "design"` at time 0
with id `"a"`. -/
def demoEntry : TimeEntry :=
  { id := "a", task_id := "T", start_time := 0, end_time := none,
    description := "design", duration_seconds := 0 }

/-- A tracker with one running entry, reached from the empty store. -/
def demoRunning : TrackerState :=
  runOps initState [TrackerOp.start "T" "design" 0 "a"]

/-! ## Claims -/

/-- C1 (amended): for every sequence of the public operations `start_timer`,
`stop_timer`, `update_time_entry` and `delete_time_entry` from the empty
store in which no `update_time_entry` payload sets `end_time` to null, at
most one `TimeEntry` in the store has a null end timestamp.  (Over arbitrary
`update_time_entry` payloads the claim fails: see
`two_open_entries_after_null_end_update`.) -/
theorem single_open_invariant (ops : List TrackerOp)
    (hsafe : ∀ op ∈ ops, safeOp op = true) :
    openCount (runOps initState ops).time_entries ≤ 1 :=
  openCount_le_one_of_inv (inv_runOps hsafe (by decide))

/-- Witness for `single_open_invariant` at a concrete safe trace. -/
theorem single_open_invariant_witness :
    openCount (runOps initState
      [TrackerOp.start "T" "design" 0 "a", TrackerOp.start "T" "coding" 5 "b",
       TrackerOp.stop 9]).time_entries ≤ 1 :=
  single_open_invariant
    [TrackerOp.start "T" "design" 0 "a", TrackerOp.start "T" "coding" 5 "b",
     TrackerOp.stop 9] (by decide)

/-- C1 counterexample: from the empty store, `start_timer`, `start_timer`
(which closes the first entry), then `update_time_entry` on the first entry
with payload `end_time = None` — an allowed field — leaves two entries with
a null end timestamp, so the claimed invariant over all four public
operations is false. -/
theorem two_open_entries_after_null_end_update :
    openCount (runOps initState
      [TrackerOp.start "T" "design" 0 "a", TrackerOp.start "T" "coding" 5 "b",
       TrackerOp.update "a" [("end_time", PyVal.vnone)]]).time_entries = 2 ∧
    ¬ openCount (runOps initState
      [TrackerOp.start "T" "design" 0 "a", TrackerOp.start "T" "coding" 5 "b",
       TrackerOp.update "a" [("end_time", PyVal.vnone)]]).time_entries ≤ 1 := by
  decide

/-- C5: `stop_timer` in the idle state returns an absent result and leaves
the tracker completely unchanged (no entry modified, nothing persisted); in
the running state it sets the active entry's end to now, its
`duration_seconds` to `end - start` in whole seconds, becomes idle, persists
the store, and returns the completed entry. -/
theorem stop_timer_spec (st : TrackerState) (now : Int) :
    (st.active_entry = none → stop_timer st now = (none, st)) ∧
    (∀ a e, st.active_entry = some a → dget st.time_entries a = some e →
      stop_timer st now =
        (some { e with end_time := some now, duration_seconds := now - e.start_time },
         { time_entries := dset st.time_entries a
             { e with end_time := some now, duration_seconds := now - e.start_time },
           active_entry := none,
           file := dset st.time_entries a
             { e with end_time := some now, duration_seconds := now - e.start_time },
           saves := st.saves + 1 })) := by
  constructor
  · intro h
    simp [stop_timer, h]
  · intro a e hact hget
    simp [stop_timer, hact, hget, save_time_entries]

/-- Witness for `stop_timer_spec`: the idle case on the empty tracker and
the running case on the demo tracker. -/
theorem stop_timer_spec_witness :
    stop_timer initState 7 = (none, initState) ∧
    (stop_timer demoRunning 9).1 =
      some { demoEntry with
             end_time := some 9,
             duration_seconds := 9 - demoEntry.start_time } :=
  ⟨(stop_timer_spec initState 7).1 rfl,
   by rw [(stop_timer_spec demoRunning 9).2 "a" demoEntry (by decide) (by decide)]⟩

/-- C3: calling `start_timer` in a state with a running entry closes that
entry — end timestamp now, `duration_seconds = now - start`, non-negative
since time is monotone — and creates exactly one new entry with start
timestamp now and a null end; afterwards the new entry is active and is the
only open entry, and the store has grown by exactly one entry. -/
theorem auto_stop_on_start (st : TrackerState) (tid d : String) (now : Int)
    (nid a : String) (e : TimeEntry)
    (hInv : Inv st)
    (hact : st.active_entry = some a)
    (hget : dget st.time_entries a = some e)
    (hopen : e.end_time = none)
    (hmono : e.start_time ≤ now)
    (hfresh : dget st.time_entries nid = none) :
    dget (start_timer st tid d now nid).2.time_entries a =
      some { e with end_time := some now, duration_seconds := now - e.start_time } ∧
    0 ≤ now - e.start_time ∧
    dget (start_timer st tid d now nid).2.time_entries nid =
      some { id := nid, task_id := tid, start_time := now, end_time := none,
             description := d, duration_seconds := 0 } ∧
    (start_timer st tid d now nid).1 =
      { id := nid, task_id := tid, start_time := now, end_time := none,
        description := d, duration_seconds := 0 } ∧
    (start_timer st tid d now nid).2.active_entry = some nid ∧
    openCount (start_timer st tid d now nid).2.time_entries = 1 ∧
    (start_timer st tid d now nid).2.time_entries.length =
      st.time_entries.length + 1 := by
  have hane : a ≠ nid := fun hh => by rw [hh, hfresh] at hget; cases hget
  have hsome : st.active_entry.isSome = true := by rw [hact]; rfl
  have hstop : (stop_timer st now).2 =
      { time_entries := dset st.time_entries a
          { e with end_time := some now, duration_seconds := now - e.start_time },
        active_entry := none,
        file := dset st.time_entries a
          { e with end_time := some now, duration_seconds := now - e.start_time },
        saves := st.saves + 1 } := by
    simp [stop_timer, hact, hget, save_time_entries]
  have hstart : (start_timer st tid d now nid).2 =
      { time_entries := dset (dset st.time_entries a
            { e with end_time := some now, duration_seconds := now - e.start_time }) nid
            { id := nid, task_id := tid, start_time := now, end_time := none,
              description := d, duration_seconds := 0 },
        active_entry := some nid,
        file := dset (dset st.time_entries a
            { e with end_time := some now, duration_seconds := now - e.start_time }) nid
            { id := nid, task_id := tid, start_time := now, end_time := none,
              description := d, duration_seconds := 0 },
        saves := st.saves + 2 } := by
    simp only [start_timer, hsome, if_true, hstop, save_time_entries]
  have hfresh2 : dget (dset st.time_entries a
      { e with end_time := some now, duration_seconds := now - e.start_time }) nid = none := by
    rw [dget_dset_ne _ _ _ _ (fun hh => hane hh.symm)]
    exact hfresh
  refine ⟨?_, by omega, ?_, rfl, ?_, ?_, ?_⟩
  · rw [hstart]
    show dget (dset _ nid _) a = _
    rw [dget_dset_ne _ _ _ _ hane, dget_dset_self]
  · rw [hstart]
    show dget (dset _ nid _) nid = _
    rw [dget_dset_self]
  · rw [hstart]
  · have hInv' : Inv (start_timer st tid d now nid).2 :=
      inv_start tid d now nid hInv
    have hle := openCount_le_one_of_inv hInv'
    have hmem : (nid, ({ id := nid, task_id := tid, start_time := now, end_time := none, description := d, duration_seconds := 0 } : TimeEntry)) ∈ (start_timer st tid d now nid).2.time_entries := by
      rw [hstart]
      exact self_mem_dset _ _ _
    have hmemf : (nid, ({ id := nid, task_id := tid, start_time := now, end_time := none, description := d, duration_seconds := 0 } : TimeEntry)) ∈ (start_timer st tid d now nid).2.time_entries.filter (fun p => p.2.end_time.isNone) :=
      List.mem_filter.mpr ⟨hmem, rfl⟩
    have hpos : 0 < ((start_timer st tid d now nid).2.time_entries.filter
        (fun p => p.2.end_time.isNone)).length :=
      List.length_pos.mpr (List.ne_nil_of_mem hmemf)
    have hoc : openCount (start_timer st tid d now nid).2.time_entries =
        ((start_timer st tid d now nid).2.time_entries.filter
          (fun p => p.2.end_time.isNone)).length := rfl
    rw [hoc] at hle ⊢
    omega
  · rw [hstart]
    show (dset (dset st.time_entries a _) nid _).length = _
    rw [dset_length_of_fresh _ hfresh2,
      dset_length_of_hit _ (by rw [hget]; rfl)]

/-- Witness for `auto_stop_on_start`: starting a second timer on the demo
tracker with one running entry. -/
theorem auto_stop_on_start_witness :
    dget (start_timer demoRunning "T" "coding" 5 "b").2.time_entries "a" =
      some { demoEntry with
             end_time := some 5,
             duration_seconds := 5 - demoEntry.start_time } ∧
    openCount (start_timer demoRunning "T" "coding" 5 "b").2.time_entries = 1 :=
  ⟨(auto_stop_on_start demoRunning "T" "coding" 5 "b" "a" demoEntry (by decide) (by decide)
      (by decide) (by decide) (by decide) (by decide)).1,
   (auto_stop_on_start demoRunning "T" "coding" 5 "b" "a" demoEntry (by decide) (by decide)
      (by decide) (by decide) (by decide) (by decide)).2.2.2.2.2.1⟩

/-- A concrete completed entry and a tracker holding it. -/
def demoClosed : TimeEntry :=
  { id := "e1", task_id := "T", start_time := 2, end_time := some 10,
    description := "work", duration_seconds := 8 }

/-- An idle tracker holding one completed entry. -/
def demoTrackerClosed : TrackerState :=
  ⟨[("e1", demoClosed)], none, [("e1", demoClosed)], 0⟩

/-- C7: for an existing entry, `update_time_entry` with a payload mentioning
`start_time` and/or `end_time` recomputes `duration_seconds` as
`end - start` in whole seconds whenever the entry's end timestamp is
non-null after the edit, using the stored value of any boundary the payload
does not mention. -/
theorem update_entry_duration_recompute (st : TrackerState) (eid : String)
    (kwargs : List (String × PyVal)) (e : TimeEntry)
    (hget : dget st.time_entries eid = some e)
    (htrig : kwargs.any (fun p => p.1 == "start_time" || p.1 == "end_time") = true) :
    ∃ e2, (update_time_entry st eid kwargs).1 = some e2 ∧
      dget (update_time_entry st eid kwargs).2.time_entries eid = some e2 ∧
      (∀ t, e2.end_time = some t → e2.duration_seconds = t - e2.start_time) ∧
      ((∀ p ∈ kwargs, p.1 ≠ "start_time") → e2.start_time = e.start_time) ∧
      ((∀ p ∈ kwargs, p.1 ≠ "end_time") → e2.end_time = e.end_time) := by
  cases hend : (applyEntryFields e kwargs).end_time with
  | some t =>
    have hres : update_time_entry st eid kwargs =
        (some { applyEntryFields e kwargs with
                duration_seconds := t - (applyEntryFields e kwargs).start_time },
         save_time_entries { st with
           time_entries := dset st.time_entries eid
             { applyEntryFields e kwargs with
               duration_seconds := t - (applyEntryFields e kwargs).start_time } }) := by
      simp only [update_time_entry, hget, htrig, if_true, hend]
    refine ⟨_, by rw [hres], ?_, ?_, ?_, ?_⟩
    · rw [hres]
      show dget (dset st.time_entries eid _) eid = _
      rw [dget_dset_self]
    · intro t' h'
      have hinj : some t = some t' := hend.symm.trans h'
      injection hinj with ht'
      show t - (applyEntryFields e kwargs).start_time =
        t' - (applyEntryFields e kwargs).start_time
      rw [ht']
    · intro hno
      show (applyEntryFields e kwargs).start_time = e.start_time
      exact applyEntryFields_start_of_absent hno
    · intro hno
      show (applyEntryFields e kwargs).end_time = e.end_time
      exact applyEntryFields_end_of_absent hno
  | none =>
    have hres : update_time_entry st eid kwargs =
        (some (applyEntryFields e kwargs),
         save_time_entries { st with
           time_entries := dset st.time_entries eid (applyEntryFields e kwargs) }) := by
      simp only [update_time_entry, hget, htrig, if_true, hend]
    refine ⟨_, by rw [hres], ?_, ?_, ?_, ?_⟩
    · rw [hres]
      show dget (dset st.time_entries eid _) eid = _
      rw [dget_dset_self]
    · intro t' h'
      rw [hend] at h'
      cases h'
    · intro hno
      exact applyEntryFields_start_of_absent hno
    · intro hno
      exact applyEntryFields_end_of_absent hno

/-- Witness for `update_entry_duration_recompute`: moving the start of a
completed entry recomputes its duration from the stored end. -/
theorem update_entry_duration_recompute_witness :
    ∃ e2, (update_time_entry demoTrackerClosed "e1"
        [("start_time", PyVal.vint 4)]).1 = some e2 ∧
      dget (update_time_entry demoTrackerClosed "e1"
        [("start_time", PyVal.vint 4)]).2.time_entries "e1" = some e2 ∧
      (∀ t, e2.end_time = some t → e2.duration_seconds = t - e2.start_time) ∧
      ((∀ p ∈ [("start_time", PyVal.vint 4)], p.1 ≠ "start_time") →
        e2.start_time = demoClosed.start_time) ∧
      ((∀ p ∈ [("start_time", PyVal.vint 4)], p.1 ≠ "end_time") →
        e2.end_time = demoClosed.end_time) :=
  update_entry_duration_recompute demoTrackerClosed "e1"
    [("start_time", PyVal.vint 4)] demoClosed (by decide) (by decide)

/-- C9: deleting the active entry by its id returns true, removes the entry
from the store, leaves the tracker idle (`get_active_entry` subsequently
returns an absent result), persists, and leaves every other entry untouched,
so the in-progress elapsed time is discarded and recorded nowhere. -/
theorem delete_active_entry_spec (st : TrackerState) (a : String) (e : TimeEntry)
    (hact : st.active_entry = some a)
    (hget : dget st.time_entries a = some e) :
    delete_time_entry st a =
      (true, { time_entries := ddel st.time_entries a,
               active_entry := none,
               file := ddel st.time_entries a,
               saves := st.saves + 1 }) ∧
    dget (delete_time_entry st a).2.time_entries a = none ∧
    (delete_time_entry st a).2.active_entry = none ∧
    get_active_entry (delete_time_entry st a).2 = none ∧
    (∀ k, k ≠ a →
      dget (delete_time_entry st a).2.time_entries k = dget st.time_entries k) := by
  have hres : delete_time_entry st a =
      (true, { time_entries := ddel st.time_entries a,
               active_entry := none,
               file := ddel st.time_entries a,
               saves := st.saves + 1 }) := by
    simp [delete_time_entry, hget, hact, save_time_entries]
  refine ⟨hres, ?_, ?_, ?_, ?_⟩
  · rw [hres]
    exact dget_ddel_self _ _
  · rw [hres]
  · rw [hres]
    rfl
  · intro k hk
    rw [hres]
    exact dget_ddel_ne _ _ _ hk

/-- Witness for `delete_active_entry_spec` on the running demo tracker. -/
theorem delete_active_entry_spec_witness :
    dget (delete_time_entry demoRunning "a").2.time_entries "a" = none ∧
    get_active_entry (delete_time_entry demoRunning "a").2 = none :=
  ⟨(delete_active_entry_spec demoRunning "a" demoEntry (by decide) (by decide)).2.1,
   (delete_active_entry_spec demoRunning "a" demoEntry (by decide) (by decide)).2.2.2.1⟩

/-- A concrete task, customer and department with their stores. -/
def demoTask : Task :=
  { id := "t1", customer_id := "c1", department_id := "d1", date := "2024-01-01",
    hours := 2, description := "work", created_at := "2024-01-01T09:00:00",
    updated_at := "2024-01-01T09:00:00" }

/-- A task store holding `demoTask`. -/
def demoTaskStore : TaskManagerState := ⟨[("t1", demoTask)], [("t1", demoTask)], 0⟩

/-- A concrete customer. -/
def demoCustomer : Customer :=
  { id := "c1", name := "Acme", email := "acme", phone := "1", address := "Road",
    created_at := "2024-01-01T09:00:00", updated_at := "2024-01-01T09:00:00" }

/-- A customer store holding `demoCustomer`. -/
def demoCustomerStore : CustomerManagerState :=
  ⟨[("c1", demoCustomer)], [("c1", demoCustomer)], 0⟩

/-- A concrete department. -/
def demoDepartment : Department :=
  { id := "d1", name := "Eng", customer_id := "c1", description := "eng",
    created_at := "2024-01-01T09:00:00", updated_at := "2024-01-01T09:00:00" }

/-- A department store holding `demoDepartment`. -/
def demoDepartmentStore : DepartmentManagerState :=
  ⟨[("d1", demoDepartment)], [("d1", demoDepartment)], 0⟩

/-- C10: for an existing task id, `update_task` with an empty payload or one
containing only unknown or forbidden names still refreshes the task's
`updated_at` to now (every other field exactly as before) and rewrites the
backing file; an update on an existing id is never a pure no-op. -/
theorem update_task_always_refreshes (st : TaskManagerState) (tid : String)
    (kwargs : List (String × PyVal)) (now : String) (t : Task)
    (hget : dget st.tasks tid = some t)
    (hforb : ∀ p ∈ kwargs, p.1 ∉ task_allowed_fields) :
    update_task st tid kwargs now =
      (some { t with updated_at := now },
       { tasks := dset st.tasks tid { t with updated_at := now },
         file := dset st.tasks tid { t with updated_at := now },
         saves := st.saves + 1 }) := by
  simp only [update_task, hget, applyTaskFields_of_forbidden hforb, save_tasks]

/-- Witness for `update_task_always_refreshes` with an empty payload. -/
theorem update_task_always_refreshes_witness :
    update_task demoTaskStore "t1" [] "2024-06-01T12:00:00" =
      (some { demoTask with updated_at := "2024-06-01T12:00:00" },
       { tasks := dset demoTaskStore.tasks "t1"
           { demoTask with updated_at := "2024-06-01T12:00:00" },
         file := dset demoTaskStore.tasks "t1"
           { demoTask with updated_at := "2024-06-01T12:00:00" },
         saves := demoTaskStore.saves + 1 }) :=
  update_task_always_refreshes demoTaskStore "t1" [] "2024-06-01T12:00:00" demoTask
    (by decide) (by decide)

/-- C4 counterexample: passing the non-allow-listed field `updated_at` in an
update payload does not leave that stored field unchanged — the update
refreshes `updated_at` to now, which differs from the value it held. -/
theorem update_task_changes_updated_at :
    ((update_task demoTaskStore "t1" [("updated_at", PyVal.vstr "2030-01-01T00:00:00")]
        "2024-06-01T12:00:00").1.map Task.updated_at) = some "2024-06-01T12:00:00" ∧
    ((dget (update_task demoTaskStore "t1"
        [("updated_at", PyVal.vstr "2030-01-01T00:00:00")]
        "2024-06-01T12:00:00").2.tasks "t1").map Task.updated_at) =
      some "2024-06-01T12:00:00" ∧
    demoTask.updated_at ≠ "2024-06-01T12:00:00" := by
  decide

/-- C4 (amended): update payloads containing names outside the allow-list
never error — the unknown names are ignored (the call equals the same call
with them filtered out) — and the non-allow-listed stored fields other than
`updated_at`, namely the entity id and `created_at`, keep their values;
`updated_at` is refreshed to now, never set to a supplied value.  (As stated
— every non-allow-listed field unchanged — the claim fails for `updated_at`:
see `update_task_changes_updated_at`.) -/
theorem update_allow_list_frame :
    (∀ (st : TaskManagerState) (tid : String) (kwargs : List (String × PyVal))
        (now : String) (t : Task), dget st.tasks tid = some t →
      ∃ t2, (update_task st tid kwargs now).1 = some t2 ∧
        t2.id = t.id ∧ t2.created_at = t.created_at ∧ t2.updated_at = now) ∧
    (∀ (st : TaskManagerState) (tid : String) (kwargs : List (String × PyVal))
        (now : String),
      update_task st tid kwargs now =
        update_task st tid
          (kwargs.filter (fun p => decide (p.1 ∈ task_allowed_fields))) now) ∧
    (∀ (st : CustomerManagerState) (cid : String) (kwargs : List (String × PyVal))
        (now : String) (c : Customer), dget st.customers cid = some c →
      ∃ c2, (update_customer st cid kwargs now).1 = some c2 ∧
        c2.id = c.id ∧ c2.created_at = c.created_at ∧ c2.updated_at = now) ∧
    (∀ (st : CustomerManagerState) (cid : String) (kwargs : List (String × PyVal))
        (now : String),
      update_customer st cid kwargs now =
        update_customer st cid
          (kwargs.filter (fun p => decide (p.1 ∈ customer_allowed_fields))) now) := by
  refine ⟨?_, ?_, ?_, ?_⟩
  · intro st tid kwargs now t hget
    refine ⟨{ applyTaskFields t kwargs with updated_at := now }, ?_,
      (applyTaskFields_frame kwargs t).1, (applyTaskFields_frame kwargs t).2, rfl⟩
    simp only [update_task, hget]
  · intro st tid kwargs now
    cases hget : dget st.tasks tid with
    | none => simp only [update_task, hget]
    | some t =>
      simp only [update_task, hget]
      rw [applyTaskFields_filter kwargs t]
  · intro st cid kwargs now c hget
    refine ⟨{ applyCustomerFields c kwargs with updated_at := now }, ?_,
      (applyCustomerFields_frame kwargs c).1, (applyCustomerFields_frame kwargs c).2, rfl⟩
    simp only [update_customer, hget]
  · intro st cid kwargs now
    cases hget : dget st.customers cid with
    | none => simp only [update_customer, hget]
    | some c =>
      simp only [update_customer, hget]
      rw [applyCustomerFields_filter kwargs c]

/-- Witness for `update_allow_list_frame`: a payload naming the forbidden
field `id` leaves id and `created_at` unchanged and refreshes `updated_at`. -/
theorem update_allow_list_frame_witness :
    ∃ t2, (update_task demoTaskStore "t1" [("id", PyVal.vstr "hack")]
        "2024-06-01T12:00:00").1 = some t2 ∧
      t2.id = demoTask.id ∧ t2.created_at = demoTask.created_at ∧
      t2.updated_at = "2024-06-01T12:00:00" :=
  update_allow_list_frame.1 demoTaskStore "t1" [("id", PyVal.vstr "hack")]
    "2024-06-01T12:00:00" demoTask (by decide)

/-- C8: for each of the three stores, a successful update of an existing
entity preserves the entity's id and `created_at` while setting `updated_at`
to now, and leaves every other stored entity untouched; `create_task` and
`delete_task` also leave every other stored entity untouched — no operation
changes a stored entity's identifier or `created_at` after creation. -/
theorem id_created_at_immutable :
    (∀ (st : TaskManagerState) (tid : String) (kwargs : List (String × PyVal))
        (now : String) (t : Task), dget st.tasks tid = some t →
      ∃ t2, (update_task st tid kwargs now).1 = some t2 ∧
        dget (update_task st tid kwargs now).2.tasks tid = some t2 ∧
        t2.id = t.id ∧ t2.created_at = t.created_at ∧ t2.updated_at = now ∧
        (∀ k, k ≠ tid →
          dget (update_task st tid kwargs now).2.tasks k = dget st.tasks k)) ∧
    (∀ (st : CustomerManagerState) (cid : String) (kwargs : List (String × PyVal))
        (now : String) (c : Customer), dget st.customers cid = some c →
      ∃ c2, (update_customer st cid kwargs now).1 = some c2 ∧
        dget (update_customer st cid kwargs now).2.customers cid = some c2 ∧
        c2.id = c.id ∧ c2.created_at = c.created_at ∧ c2.updated_at = now ∧
        (∀ k, k ≠ cid →
          dget (update_customer st cid kwargs now).2.customers k =
            dget st.customers k)) ∧
    (∀ (st : DepartmentManagerState) (did : String) (kwargs : List (String × PyVal))
        (now : String) (d : Department), dget st.departments did = some d →
      ∃ d2, (update_department st did kwargs now).1 = some d2 ∧
        dget (update_department st did kwargs now).2.departments did = some d2 ∧
        d2.id = d.id ∧ d2.created_at = d.created_at ∧ d2.updated_at = now ∧
        (∀ k, k ≠ did →
          dget (update_department st did kwargs now).2.departments k =
            dget st.departments k)) ∧
    (∀ (st : TaskManagerState) (cid did date : String) (hours : ℚ)
        (desc now ntid k : String), k ≠ ntid →
      dget (create_task st cid did date hours desc now ntid).2.tasks k =
        dget st.tasks k) ∧
    (∀ (st : TaskManagerState) (tid k : String), k ≠ tid →
      dget (delete_task st tid).2.tasks k = dget st.tasks k) := by
  refine ⟨?_, ?_, ?_, ?_, ?_⟩
  · intro st tid kwargs now t hget
    refine ⟨{ applyTaskFields t kwargs with updated_at := now }, ?_, ?_,
      (applyTaskFields_frame kwargs t).1, (applyTaskFields_frame kwargs t).2, rfl, ?_⟩
    · simp only [update_task, hget]
    · simp only [update_task, hget, save_tasks]
      show dget (dset st.tasks tid _) tid = _
      rw [dget_dset_self]
    · intro k hk
      simp only [update_task, hget, save_tasks]
      show dget (dset st.tasks tid _) k = _
      exact dget_dset_ne _ _ _ _ hk
  · intro st cid kwargs now c hget
    refine ⟨{ applyCustomerFields c kwargs with updated_at := now }, ?_, ?_,
      (applyCustomerFields_frame kwargs c).1, (applyCustomerFields_frame kwargs c).2,
      rfl, ?_⟩
    · simp only [update_customer, hget]
    · simp only [update_customer, hget, save_customers]
      show dget (dset st.customers cid _) cid = _
      rw [dget_dset_self]
    · intro k hk
      simp only [update_customer, hget, save_customers]
      show dget (dset st.customers cid _) k = _
      exact dget_dset_ne _ _ _ _ hk
  · intro st did kwargs now d hget
    refine ⟨{ applyDepartmentFields d kwargs with updated_at := now }, ?_, ?_,
      (applyDepartmentFields_frame kwargs d).1, (applyDepartmentFields_frame kwargs d).2,
      rfl, ?_⟩
    · simp only [update_department, hget]
    · simp only [update_department, hget, save_departments]
      show dget (dset st.departments did _) did = _
      rw [dget_dset_self]
    · intro k hk
      simp only [update_department, hget, save_departments]
      show dget (dset st.departments did _) k = _
      exact dget_dset_ne _ _ _ _ hk
  · intro st cid did date hours desc now ntid k hk
    simp only [create_task, save_tasks]
    show dget (dset st.tasks ntid _) k = _
    exact dget_dset_ne _ _ _ _ hk
  · intro st tid k hk
    cases hget : dget st.tasks tid with
    | none => simp only [delete_task, hget]
    | some t =>
      simp only [delete_task, hget, save_tasks]
      show dget (ddel st.tasks tid) k = _
      exact dget_ddel_ne _ _ _ hk

/-- Witness for `id_created_at_immutable`: updating the demo task's hours
keeps id and `created_at` and refreshes `updated_at`. -/
theorem id_created_at_immutable_witness :
    ∃ t2, (update_task demoTaskStore "t1" [("hours", PyVal.vnum 4)]
        "2024-06-01T12:00:00").1 = some t2 ∧
      dget (update_task demoTaskStore "t1" [("hours", PyVal.vnum 4)]
        "2024-06-01T12:00:00").2.tasks "t1" = some t2 ∧
      t2.id = demoTask.id ∧ t2.created_at = demoTask.created_at ∧
      t2.updated_at = "2024-06-01T12:00:00" ∧
      (∀ k, k ≠ "t1" →
        dget (update_task demoTaskStore "t1" [("hours", PyVal.vnum 4)]
          "2024-06-01T12:00:00").2.tasks k = dget demoTaskStore.tasks k) :=
  id_created_at_immutable.1 demoTaskStore "t1" [("hours", PyVal.vnum 4)]
    "2024-06-01T12:00:00" demoTask (by decide)

/-- A backing tasks file whose single record is missing required fields. -/
def malformedTaskFile : FileData := .parsed [("t1", [("id", PyVal.vstr "t1")])]

/-- C2 counterexample: loading a tasks file whose record lacks a required
field raises `TypeError` (from `cls(**data)` in `Task.from_dict`), which the
`except (json.JSONDecodeError, KeyError)` clause does not catch; the load
propagates the error instead of producing an empty store. -/
theorem load_tasks_missing_field_raises :
    load_tasks malformedTaskFile = .error .typeError ∧
    load_tasks malformedTaskFile ≠ .ok [] := by
  refine ⟨rfl, ?_⟩
  intro h
  rw [show load_tasks malformedTaskFile = Except.error PyError.typeError from rfl] at h
  cases h

/-- C2 (amended): a backing file that fails JSON decoding, like an absent
one, is caught and logged and yields an empty in-memory store, for both the
task and the time-entry stores; but an entity record missing a required
field raises a `TypeError` that propagates to the caller, because
`cls(**data)` raises `TypeError` — not the `KeyError` the `except` clause
anticipates. -/
theorem load_malformed_behavior :
    load_tasks .invalidJson = .ok [] ∧
    load_tasks .missing = .ok [] ∧
    load_time_entries .invalidJson = .ok ([], none) ∧
    load_time_entries .missing = .ok ([], none) ∧
    (∀ (records : List (String × RawRecord)) (p : String × RawRecord),
      p ∈ records → task_from_dict p.2 = .error .typeError →
      load_tasks (.parsed records) = .error .typeError) ∧
    (∀ (records : List (String × RawRecord)) (p : String × RawRecord),
      p ∈ records → time_entry_from_dict p.2 = .error .typeError →
      load_time_entries (.parsed records) = .error .typeError) := by
  refine ⟨rfl, rfl, rfl, rfl, ?_, ?_⟩
  · intro records p hp herr
    have h := load_items_error task_from_dict (fun r e he => from_dict_check_error he)
      records ⟨p, hp, _, herr⟩
    simp [load_tasks, h]
  · intro records p hp herr
    have h := load_items_error time_entry_from_dict
      (fun r e he => from_dict_check_error he) records ⟨p, hp, _, herr⟩
    simp [load_time_entries, h]

/-- Witness for `load_malformed_behavior` at a concrete record missing
required fields. -/
theorem load_malformed_behavior_witness :
    load_tasks (.parsed [("t2", [("id", PyVal.vstr "t2"), ("hours", PyVal.vnum 1)])]) =
      .error .typeError :=
  load_malformed_behavior.2.2.2.2.1
    [("t2", [("id", PyVal.vstr "t2"), ("hours", PyVal.vnum 1)])]
    ("t2", [("id", PyVal.vstr "t2"), ("hours", PyVal.vnum 1)]) (by decide) rfl

/-- The percentage-filling tail shared by both reports, abstracted over the
row type: given the sorted rows, all created with percentage 0 and positive
totals, filling percentages only when the grand total is positive yields the
claimed percentage laws. -/
theorem percent_rows_spec {α : Type} (pct th : α → ℚ) (fill : α → α)
    (sorted : List α)
    (hth : ∀ x, th (fill x) = th x)
    (hpct : ∀ x, pct (fill x) = th x / (sorted.map th).sum * 100)
    (hpos : ∀ x ∈ sorted, 0 < th x) :
    (0 < (((if 0 < (sorted.map th).sum then sorted.map fill else sorted)).map th).sum →
      ∀ it ∈ (if 0 < (sorted.map th).sum then sorted.map fill else sorted),
        pct it = th it /
          (((if 0 < (sorted.map th).sum then sorted.map fill else sorted)).map th).sum
          * 100) ∧
    ((((if 0 < (sorted.map th).sum then sorted.map fill else sorted)).map th).sum = 0 →
      ∀ it ∈ (if 0 < (sorted.map th).sum then sorted.map fill else sorted),
        pct it = 0) ∧
    ((if 0 < (sorted.map th).sum then sorted.map fill else sorted) ≠ [] →
      (((if 0 < (sorted.map th).sum then sorted.map fill else sorted)).map pct).sum
        = 100) := by
  have hGnn : 0 ≤ (sorted.map th).sum := by
    refine List.sum_nonneg ?_
    intro y hy
    obtain ⟨x, hx, hxy⟩ := List.mem_map.mp hy
    rw [← hxy]
    exact le_of_lt (hpos x hx)
  by_cases hG : 0 < (sorted.map th).sum
  · have hthmap : ((sorted.map fill).map th).sum = (sorted.map th).sum := by
      rw [List.map_map]
      exact congrArg List.sum (List.map_congr_left (fun x _ => hth x))
    rw [if_pos hG]
    refine ⟨?_, ?_, ?_⟩
    · intro _ it hit
      obtain ⟨x, hx, hxit⟩ := List.mem_map.mp hit
      rw [← hxit, hpct x, hth x, hthmap]
    · intro hzero'
      rw [hthmap] at hzero'
      exact absurd hzero' (ne_of_gt hG)
    · intro _
      have hmapmap : (sorted.map fill).map pct =
          (sorted.map th).map (fun t => t / (sorted.map th).sum * 100) := by
        rw [List.map_map, List.map_map]
        exact List.map_congr_left (fun x _ => hpct x)
      rw [hmapmap, sum_map_div_mul, div_self (ne_of_gt hG), one_mul]
  · have hGz : (sorted.map th).sum = 0 := le_antisymm (not_lt.mp hG) hGnn
    have hnil : sorted = [] := by
      cases hs : sorted with
      | nil => rfl
      | cons hd tl =>
        exfalso
        apply hG
        refine List.sum_pos _ ?_ (by simp [hs])
        intro y hy
        obtain ⟨x, hx, hxy⟩ := List.mem_map.mp hy
        rw [← hxy]
        exact hpos x hx
    rw [if_neg hG, hnil]
    simp

/-- C6: in both hours reports, when the grand total is positive every row's
percentage equals `row_total / grand_total * 100`; when the grand total is
zero every row's percentage is 0 (the zero guard means no division is ever
performed); and a non-empty report's percentages sum to exactly 100 — with
hours as exact rationals the identity is exact, which implies the claimed
floating-point tolerance. -/
theorem report_percentage_spec (cm : CustomerManagerState) (tm : TaskManagerState)
    (dm : DepartmentManagerState) :
    ((0 < ((report_customers cm tm).map CustomerReportItem.total_hours).sum →
      ∀ it ∈ report_customers cm tm,
        it.percentage = it.total_hours /
          ((report_customers cm tm).map CustomerReportItem.total_hours).sum * 100) ∧
     (((report_customers cm tm).map CustomerReportItem.total_hours).sum = 0 →
      ∀ it ∈ report_customers cm tm, it.percentage = 0) ∧
     (report_customers cm tm ≠ [] →
      ((report_customers cm tm).map CustomerReportItem.percentage).sum = 100)) ∧
    ((0 < ((report_departments dm cm tm).map DepartmentReportItem.total_hours).sum →
      ∀ it ∈ report_departments dm cm tm,
        it.percentage = it.total_hours /
          ((report_departments dm cm tm).map DepartmentReportItem.total_hours).sum
          * 100) ∧
     (((report_departments dm cm tm).map DepartmentReportItem.total_hours).sum = 0 →
      ∀ it ∈ report_departments dm cm tm, it.percentage = 0) ∧
     (report_departments dm cm tm ≠ [] →
      ((report_departments dm cm tm).map DepartmentReportItem.percentage).sum
        = 100)) := by
  constructor
  · have hposC : ∀ x ∈ sortDescBy CustomerReportItem.total_hours (customer_rows cm tm),
        0 < x.total_hours := by
      intro x hx
      have hx' := (sortDescBy_perm CustomerReportItem.total_hours
        (customer_rows cm tm)).mem_iff.mp hx
      obtain ⟨c, hc, hcx⟩ := List.mem_filterMap.mp hx'
      simp only at hcx
      by_cases hpos : 0 < ((get_tasks_by_customer tm c.id).map Task.hours).sum
      · rw [if_pos hpos] at hcx
        injection hcx with hcx
        rw [← hcx]
        exact hpos
      · rw [if_neg hpos] at hcx
        cases hcx
    exact percent_rows_spec CustomerReportItem.percentage CustomerReportItem.total_hours
      (fun item => { item with
        percentage := item.total_hours /
          ((sortDescBy CustomerReportItem.total_hours (customer_rows cm tm)).map
            CustomerReportItem.total_hours).sum * 100 })
      (sortDescBy CustomerReportItem.total_hours (customer_rows cm tm))
      (fun x => rfl) (fun x => rfl) hposC
  · have hposD : ∀ x ∈ sortDescBy DepartmentReportItem.total_hours
        (department_rows dm cm tm), 0 < x.total_hours := by
      intro x hx
      have hx' := (sortDescBy_perm DepartmentReportItem.total_hours
        (department_rows dm cm tm)).mem_iff.mp hx
      obtain ⟨d, hd, hdx⟩ := List.mem_filterMap.mp hx'
      simp only at hdx
      by_cases hpos : 0 < ((get_tasks_by_department tm d.id).map Task.hours).sum
      · rw [if_pos hpos] at hdx
        injection hdx with hdx
        rw [← hdx]
        exact hpos
      · rw [if_neg hpos] at hdx
        cases hdx
    exact percent_rows_spec DepartmentReportItem.percentage DepartmentReportItem.total_hours
      (fun item => { item with
        percentage := item.total_hours /
          ((sortDescBy DepartmentReportItem.total_hours (department_rows dm cm tm)).map
            DepartmentReportItem.total_hours).sum * 100 })
      (sortDescBy DepartmentReportItem.total_hours (department_rows dm cm tm))
      (fun x => rfl) (fun x => rfl) hposD

/-- Witness for `report_percentage_spec` on one customer, one department and
one task of 2 hours: each non-empty report's percentages sum to 100. -/
theorem report_percentage_spec_witness :
    ((report_customers demoCustomerStore demoTaskStore).map
      CustomerReportItem.percentage).sum = 100 ∧
    ((report_departments demoDepartmentStore demoCustomerStore demoTaskStore).map
      DepartmentReportItem.percentage).sum = 100 := by
  constructor
  · refine (report_percentage_spec demoCustomerStore demoTaskStore
      demoDepartmentStore).1.2.2 ?_
    have h1 : customer_rows demoCustomerStore demoTaskStore =
        [{ customer := "Acme", total_hours := 2, task_count := 1, percentage := 0 }] := by
      unfold customer_rows get_all_customers get_tasks_by_customer get_all_tasks
      norm_num [demoCustomerStore, demoTaskStore, demoCustomer, demoTask,
        List.filterMap_cons, List.filter_cons, List.filter_nil]
    have h2 : sortDescBy CustomerReportItem.total_hours
        (customer_rows demoCustomerStore demoTaskStore) =
        [{ customer := "Acme", total_hours := 2, task_count := 1, percentage := 0 }] := by
      rw [h1]; rfl
    unfold report_customers
    rw [h2]
    norm_num [List.map_cons, List.map_nil, List.sum_cons, List.sum_nil]
  · refine (report_percentage_spec demoCustomerStore demoTaskStore
      demoDepartmentStore).2.2.2 ?_
    have h1 : department_rows demoDepartmentStore demoCustomerStore demoTaskStore =
        [{ department := "Eng", customer := "Acme", total_hours := 2, task_count := 1,
           percentage := 0 }] := by
      unfold department_rows get_all_departments get_tasks_by_department get_all_tasks
        get_customer
      norm_num [demoDepartmentStore, demoCustomerStore, demoTaskStore, demoDepartment,
        demoCustomer, demoTask, List.filterMap_cons, List.filter_cons, List.filter_nil,
        dget]
    have h2 : sortDescBy DepartmentReportItem.total_hours
        (department_rows demoDepartmentStore demoCustomerStore demoTaskStore) =
        [{ department := "Eng", customer := "Acme", total_hours := 2, task_count := 1,
           percentage := 0 }] := by
      rw [h1]; rfl
    unfold report_departments
    rw [h2]
    norm_num [List.map_cons, List.map_nil, List.sum_cons, List.sum_nil]

end TTM
